import Mathlib

/-!
Verification development for the header module of the npyz repository
(src/header.rs).  The file shallowly embeds:

* the literal-language value parser (the nom combinators in mod parser),
* the envelope parser (parser::header),
* the dtype model (DType, RecordDType) with its descriptor codec
  (descr, from_descr, from_list, convert_field).

Text is modelled as List Char (Rust String / str slices restricted to the
unicode-scalar view; every byte the grammar branches on is ASCII).  nom
failures (both Error and Incomplete) are merged into Option.none: for every
input considered in the theorems below the two failure modes lead to the
same observable outcome of the surrounding combinators, which matches the
behaviour documented by the commented-out tests in the source.

nom-specific behaviour that is modelled faithfully:
* ws! threads a whitespace eater (space, tab, CR, LF) before every token of
  the wrapped combinator tree and after the whole parser;
* is_not_s! and digit demand at least one matched byte, and report
  Incomplete (here: none) when the match runs to the end of input;
* separated_list! allows the empty list, and backtracks the separator when
  the element after it fails;
* length_value! hands exactly L bytes to the inner parser and discards
  whatever part of that window the inner parser did not consume;
* Rust panics (unimplemented!() and out-of-bounds indexing) are modelled by
  a dedicated PResult.panics outcome, distinct from returning an error.
-/

/-- Text as a list of unicode scalars; Rust String in the source. -/
abbrev Str := List Char

/-- The whitespace characters eaten by nom's sp / ws! combinator. -/
def isWsChar (c : Char) : Bool :=
  c == ' ' || c == '\t' || c == '\r' || c == '\n'

/-- The whitespace eater that ws! inserts around tokens. -/
def dropWs (s : Str) : Str := s.dropWhile isWsChar

/-- Generic literal-language AST node (enum Value in the source).
HashMap String Value is modelled as an association list with unique keys,
built by last-wins insertion (mapInsert / collectMap below). -/
inductive Value where
  | String (s : Str)
  | Integer (i : Int)
  | Bool (b : Bool)
  | List (vs : List Value)
  | Map (m : List (Str × Value))
deriving BEq

/-- HashMap::insert – replaces any previous binding of the key. -/
def mapInsert (m : List (Str × Value)) (k : Str) (v : Value) :
    List (Str × Value) :=
  (m.filter (fun p => !(p.1 == k))) ++ [(k, v)]

/-- Vec<(String, Value)>::into_iter().collect::<HashMap<_,_>>() –
sequential insertion, so a later binding of a key overwrites an earlier
one. -/
def collectMap (ps : List (Str × Value)) : List (Str × Value) :=
  ps.foldl (fun m p => mapInsert m p.1 p.2) []

/-- HashMap::get on the association-list model. -/
def mapLookup (m : List (Str × Value)) (k : Str) : Option Value :=
  (m.find? (fun p => p.1 == k)).map (fun p => p.2)

namespace parser

/-- nom tag!: succeeds when t is a prefix of the input (a shorter input or
a mismatch both fail). -/
def tag (t : Str) (s : Str) : Option Str :=
  if t.isPrefixOf s then some (s.drop t.length) else none

/-- nom digit: one or more ASCII digits; fails when the first character is
not a digit and also (streaming Incomplete) when the digit run reaches the
end of the input. -/
def digits (s : Str) : Option (Str × Str) :=
  let ds := s.takeWhile (fun c => c.isDigit)
  if ds.isEmpty then none
  else if (s.drop ds.length).isEmpty then none
  else some (ds, s.drop ds.length)

/-- Numeric value of a digit string, as computed by i64::from_str. -/
def digitsVal (ds : Str) : Nat :=
  ds.foldl (fun a c => a * 10 + (c.toNat - 48)) 0

/-- i64::MAX; i64::from_str fails (map_res!) beyond it. -/
def i64Max : Nat := 9223372036854775807

/-- named! integer: map!(map_res!(map_res!(ws!(digit), from_utf8),
FromStr::from_str), Value::Integer).  Note: no sign handling at all. -/
def integer (s : Str) : Option (Value × Str) :=
  match digits (dropWs s) with
  | none => none
  | some (ds, r) =>
    if digitsVal ds ≤ i64Max then
      some (Value.Integer (Int.ofNat (digitsVal ds)), dropWs r)
    else none

/-- named! boolean: ws!(alt!(tag!("True") | tag!("False"))). -/
def boolean (s : Str) : Option (Value × Str) :=
  match tag ("True".toList) (dropWs s) with
  | some r => some (Value.Bool true, dropWs r)
  | none =>
    match tag ("False".toList) (dropWs s) with
    | some r => some (Value.Bool false, dropWs r)
    | none => none

/-- nom is_not_s!: the longest run of characters different from q; fails on
an empty run, and (streaming Incomplete) when the run reaches the end of
the input. -/
def notChar (q : Char) (s : Str) : Option (Str × Str) :=
  let cs := s.takeWhile (fun c => !(c == q))
  if cs.isEmpty then none
  else if (s.drop cs.length).isEmpty then none
  else some (cs, s.drop cs.length)

/-- One branch of the string alternation:
delimited!(tag!(q), is_not_s!(q), tag!(q)) with the ws! separator threaded
before each of the three tokens. -/
def quoted (q : Char) (s : Str) : Option (Str × Str) :=
  match tag [q] (dropWs s) with
  | none => none
  | some r1 =>
    match notChar q (dropWs r1) with
    | none => none
    | some (cs, r2) =>
      match tag [q] (dropWs r2) with
      | none => none
      | some r3 => some (cs, r3)

/-- named! string: ws!(alt!(double-quoted | single-quoted)), mapped through
from_utf8 and to_string into Value::String. -/
def string (s : Str) : Option (Value × Str) :=
  match quoted '"' s with
  | some (cs, r) => some (Value.String cs, dropWs r)
  | none =>
    match quoted '\'' s with
    | some (cs, r) => some (Value.String cs, dropWs r)
    | none => none

/-- The loop of separated_list!(tag!(","), item) after the first element:
repeatedly a comma then an element, backtracking over the comma when the
element fails.  The Nat argument is loop fuel; callers pass one more than
the length of the remaining input, which every iteration strictly consumes
(the comma), so the fuel bound is never the reason the loop stops. -/
def sepLoop (elem : Str → Option (Value × Str)) :
    Nat → Str → List Value → (List Value × Str)
  | 0, s, acc => (acc, s)
  | n + 1, s, acc =>
    match tag [','] (dropWs s) with
    | none => (acc, s)
    | some r1 =>
      match elem r1 with
      | none => (acc, s)
      | some (v, r2) => sepLoop elem n r2 (acc ++ [v])

/-- separated_list!(tag!(","), item): zero or more elements. -/
def sepList (elem : Str → Option (Value × Str)) (s : Str) :
    (List Value × Str) :=
  match elem s with
  | none => ([], s)
  | some (v, r) => sepLoop elem (r.length + 1) r [v]

/-- Body of one list branch after its opening delimiter:
terminated!(separated_list!(tag!(","), item), alt!(tag!(",") | tag!("")))
followed by the closing tag, with ws! separators, then the terminal
whitespace eat of ws!. -/
def groupTail (elem : Str → Option (Value × Str)) (closeCh : Char)
    (r : Str) : Option (List Value × Str) :=
  let p := sepList elem r
  let r2 :=
    match tag [','] (dropWs p.2) with
    | some x => x
    | none => p.2
  match tag [closeCh] (dropWs r2) with
  | some r3 => some (p.1, dropWs r3)
  | none => none

/-- named! list: ws!(alt!(bracketed | parenthesized)); both produce
Value::List. -/
def listF (elem : Str → Option (Value × Str)) (s : Str) :
    Option (Value × Str) :=
  match tag ['['] (dropWs s) with
  | some r =>
    match groupTail elem ']' r with
    | some (vs, r3) => some (Value.List vs, r3)
    | none => none
  | none =>
    match tag ['('] (dropWs s) with
    | some r =>
      match groupTail elem ')' r with
      | some (vs, r3) => some (Value.List vs, r3)
      | none => none
    | none => none

/-- separated_pair!(map_opt!(string, as-string), tag!(":"), item). -/
def pairP (elem : Str → Option (Value × Str)) (s : Str) :
    Option ((Str × Value) × Str) :=
  match string s with
  | some (Value.String k, r) =>
    (match tag [':'] (dropWs r) with
     | none => none
     | some r2 =>
       match elem r2 with
       | none => none
       | some (v, r3) => some ((k, v), r3))
  | _ => none

/-- The loop of separated_list! over key-value pairs, as in sepLoop. -/
def pairLoop (elem : Str → Option (Value × Str)) :
    Nat → Str → List (Str × Value) → (List (Str × Value) × Str)
  | 0, s, acc => (acc, s)
  | n + 1, s, acc =>
    match tag [','] (dropWs s) with
    | none => (acc, s)
    | some r1 =>
      match pairP elem r1 with
      | none => (acc, s)
      | some (p, r2) => pairLoop elem n r2 (acc ++ [p])

/-- separated_list! over key-value pairs. -/
def sepPairs (elem : Str → Option (Value × Str)) (s : Str) :
    (List (Str × Value) × Str) :=
  match pairP elem s with
  | none => ([], s)
  | some (p, r) => pairLoop elem (r.length + 1) r [p]

/-- named! map: braces around pairs with optional trailing comma; the pair
vector is collected into a HashMap (collectMap). -/
def mapF (elem : Str → Option (Value × Str)) (s : Str) :
    Option (Value × Str) :=
  match tag ['{'] (dropWs s) with
  | none => none
  | some r =>
    let p := sepPairs elem r
    let r2 :=
      match tag [','] (dropWs p.2) with
      | some x => x
      | none => p.2
    match tag ['}'] (dropWs r2) with
    | some r3 => some (Value.Map (collectMap p.1), dropWs r3)
    | none => none

/-- named! item: alt!(integer | boolean | string | list | map).  The Nat is
recursion fuel for the nested list/map grammar; each nesting level consumes
at least its opening delimiter, so fuel (input length + 1) never runs out. -/
def item : Nat → Str → Option (Value × Str)
  | 0, _ => none
  | n + 1, s =>
    match integer s with
    | some r => some r
    | none =>
      match boolean s with
      | some r => some r
      | none =>
        match string s with
        | some r => some r
        | none =>
          match listF (item n) s with
          | some r => some r
          | none => mapF (item n) s

end parser

/-- Running parser::item on a complete input slice. -/
def parse_item (s : Str) : Option (Value × Str) :=
  parser.item (s.length + 1) s

/-- Representation of a Numpy type (struct DType in the source). -/
structure DType where
  ty : Str
  shape : List Nat
deriving DecidableEq

/-- Compound Numpy type of a record or plain array (enum RecordDType). -/
inductive RecordDType where
  | Simple (d : DType)
  | Structured (fields : List (Str × DType))
deriving DecidableEq

/-- The inner fold of the shape part of descr:
shape.iter().fold(String::new(), |o,n| o + &format!("{},", n)). -/
def renderShape (shape : List Nat) : Str :=
  shape.foldl (fun o n => o ++ (Nat.repr n).toList ++ [',']) []

/-- The per-field string of descr: format!("('{}', '{}'), ", id, ty) when
the shape is empty, format!("('{}', '{}', ({})), ", id, ty, shape) else. -/
def renderField (f : Str × DType) : Str :=
  if f.2.shape.length = 0 then
    "('".toList ++ f.1 ++ "', '".toList ++ f.2.ty ++ "'), ".toList
  else
    "('".toList ++ f.1 ++ "', '".toList ++ f.2.ty ++ "', (".toList ++
      renderShape f.2.shape ++ ")), ".toList

/-- RecordDType::descr. -/
def descr : RecordDType → Str
  | RecordDType.Structured fields =>
    (fields.foldl (fun o f => o ++ renderField f) ("[".toList)) ++
      "]".toList
  | RecordDType.Simple d => "'".toList ++ d.ty ++ "'".toList

/-- Outcome of the fallible conversion functions: an ordinary return value,
or a Rust panic (unimplemented!() or an out-of-bounds index).  The io
Result error path is never constructed anywhere in the source, so it has no
constructor here. -/
inductive PResult (α : Type) where
  | ok (val : α)
  | panics (msg : String)
deriving DecidableEq

/-- convert_field: evaluates (&field[0], &field[1]) – an out-of-bounds
panic for fewer than two elements – then matches for two leading strings,
with unimplemented!() on every other shape. -/
def convert_field (field : List Value) : PResult (Str × DType) :=
  match field with
  | Value.String id :: Value.String t :: _ =>
    PResult.ok (id, DType.mk t [])
  | _ :: _ :: _ => PResult.panics ("not implemented")
  | _ => PResult.panics ("index out of bounds")

/-- from_list: each entry must be a Value::List and is sent through
convert_field; any other entry hits unimplemented!(). -/
def from_list : List Value → PResult (List (Str × DType))
  | [] => PResult.ok []
  | v :: vs =>
    match v with
    | Value.List f =>
      (match convert_field f with
       | PResult.ok p =>
         (match from_list vs with
          | PResult.ok ps => PResult.ok (p :: ps)
          | PResult.panics m => PResult.panics m)
       | PResult.panics m => PResult.panics m)
    | _ => PResult.panics ("not implemented")

/-- RecordDType::from_descr. -/
def from_descr : Value → PResult RecordDType
  | Value.String s => PResult.ok (RecordDType.Simple (DType.mk s []))
  | Value.List vs =>
    (match from_list vs with
     | PResult.ok ps => PResult.ok (RecordDType.Structured ps)
     | PResult.panics m => PResult.panics m)
  | _ => PResult.panics ("not implemented")

/-- The five ASCII bytes of the format tag b"NUMPY". -/
def numpyTag : List Nat := [78, 85, 77, 80, 89]

/-- tag! on raw bytes, for the envelope prefix. -/
def byteTag (t : List Nat) (bs : List Nat) : Option (List Nat) :=
  if t.isPrefixOf bs then some (bs.drop t.length) else none

/-- Byte-to-text view of the header window handed to the value parser
(ASCII in every input considered here). -/
def decodeBytes (bs : List Nat) : Str := bs.map Char.ofNat

/-- The tail of parser::header after magic, tag and version:
hdr: length_value!(le_u16, item).  le_u16 is little endian; the window is
exactly L bytes; item runs on the window and any unconsumed suffix of the
window is discarded (nom length_value! keeps only the parsed value). -/
def afterVersion (r3 : List Nat) : Option (Value × List Nat) :=
  match r3 with
  | b0 :: b1 :: r4 =>
    let L := b0 + 256 * b1
    if r4.length < L then none
    else
      match parser.item (L + 1) (decodeBytes (r4.take L)) with
      | some (v, _) => some (v, r4.drop L)
      | none => none
  | _ => none

/-- parser::header / parse_header: tag 0x93, tag b"NUMPY", tag [1, 0],
then the length-prefixed header window. -/
def parse_header (bs : List Nat) : Option (Value × List Nat) :=
  match byteTag [147] bs with
  | none => none
  | some r1 =>
    match byteTag numpyTag r1 with
    | none => none
    | some r2 =>
      match byteTag [1, 0] r2 with
      | none => none
      | some r3 => afterVersion r3

/-- The Value produced by descr for a shapeless field, and reconstructed by
the round trip. -/
def fieldVal (f : Str × DType) : Value :=
  Value.List [Value.String f.1, Value.String f.2.ty]

/-- A string that survives the grammar round trip: non-empty, free of
single quotes, and not starting with one of the ws!-eaten whitespace
characters (ws! threads its eater between the opening quote and the
is_not_s! content). -/
def goodStr : Str → Bool
  | [] => false
  | c :: cs => !(isWsChar c) && (c :: cs).all (fun x => !(x == '\''))

/-- A field within the round-trip scope: well-behaved name and type
strings, and an empty shape. -/
def fieldGood (f : Str × DType) : Bool :=
  goodStr f.1 && goodStr f.2.ty && f.2.shape.isEmpty

/-- Scope of the amended round-trip claim. -/
def goodRecord : RecordDType → Bool
  | RecordDType.Simple d => goodStr d.ty && d.shape.isEmpty
  | RecordDType.Structured fs => fs.all fieldGood

/-- Scope of the round-trip claim exactly as stated: every shape empty
(the per-field-shape form excluded). -/
def shapesEmpty : RecordDType → Bool
  | RecordDType.Simple d => d.shape.isEmpty
  | RecordDType.Structured fs => fs.all (fun f => f.2.shape.isEmpty)

/-- from_descr(parse(descr(d))): serialize, parse with the item production,
convert back; none when the parse or the conversion does not return
normally. -/
def roundTrip (d : RecordDType) : Option RecordDType :=
  match parse_item (descr d) with
  | some (v, _) =>
    (match from_descr v with
     | PResult.ok r => some r
     | PResult.panics _ => none)
  | none => none

/-! ## Helper lemmas -/

theorem foldl_append_eq {α : Type} (g : α → Str) :
    ∀ (l : List α) (a : Str),
      l.foldl (fun o f => o ++ g f) a = a ++ (l.map g).flatten
  | [], a => by simp
  | f :: l, a => by
    simp only [List.foldl_cons, List.map_cons, List.flatten,
      foldl_append_eq g l (a ++ g f), List.append_assoc,
      List.flatten_cons]

theorem renderShape_eq (shape : List Nat) :
    renderShape shape =
      (shape.map (fun n => (Nat.repr n).toList ++ [','])).flatten := by
  have h := foldl_append_eq (fun n => (Nat.repr n).toList ++ [',']) shape []
  simpa [renderShape] using h

theorem descr_structured (fs : List (Str × DType)) :
    descr (RecordDType.Structured fs) =
      '[' :: ((fs.map renderField).flatten ++ [']']) := by
  have h := foldl_append_eq renderField fs ("[".toList)
  simp only [descr, h]
  simp

/-- Rendering of one structured field, spelled exactly as the formatting
claim states it: a 2-tuple for a shapeless field, a 3-tuple with a comma
after every dimension otherwise, each followed by a comma and a space. -/
def specFieldRender (f : Str × DType) : Str :=
  if f.2.shape = [] then
    "('".toList ++ f.1 ++ "', '".toList ++ f.2.ty ++ "')".toList ++
      ", ".toList
  else
    "('".toList ++ f.1 ++ "', '".toList ++ f.2.ty ++ "', (".toList ++
      ((f.2.shape.map (fun n => (Nat.repr n).toList ++ [','])).flatten) ++
      "))".toList ++ ", ".toList

theorem renderField_eq_spec (f : Str × DType) :
    renderField f = specFieldRender f := by
  obtain ⟨nm, ty, shape⟩ := f
  cases shape with
  | nil => simp [renderField, specFieldRender]
  | cons d ds => simp [renderField, specFieldRender, renderShape_eq]

/-! ## Claim theorems: descriptor serialization and conversion -/

/-- C2: descr of a Structured record is the bracketed list of per-field
tuples, each rendered exactly as the claim states (2-tuples for shapeless
fields, 3-tuples with a trailing comma inside the shape otherwise, every
field followed by a comma and a space, input order preserved), and the
concrete two-field example renders character for character as
"[('float', '>f4'), ('byte', '<u1'), ]". -/
theorem c2_descr_structured_format :
    (∀ fs : List (Str × DType),
      descr (RecordDType.Structured fs) =
        '[' :: ((fs.map specFieldRender).flatten ++ [']'])) ∧
    descr (RecordDType.Structured
        [("float".toList, DType.mk (">f4".toList) []),
         ("byte".toList, DType.mk ("<u1".toList) [])]) =
      "[('float', '>f4'), ('byte', '<u1'), ]".toList := by
  constructor
  · intro fs
    rw [descr_structured]
    have h : fs.map renderField = fs.map specFieldRender :=
      List.map_congr_left (fun f _ => renderField_eq_spec f)
    rw [h]
  · rfl

/-- C3: from_descr does not return an UnsupportedDescriptor error on the
Integer, Bool and Map variants; it panics via unimplemented!() instead
(modelled by the PResult.panics outcome, which is not a returned error). -/
theorem c3_from_descr_other_variants_panic :
    (∀ i, from_descr (Value.Integer i) =
      PResult.panics ("not implemented")) ∧
    (∀ b, from_descr (Value.Bool b) =
      PResult.panics ("not implemented")) ∧
    (∀ m, from_descr (Value.Map m) =
      PResult.panics ("not implemented")) :=
  ⟨fun _ => rfl, fun _ => rfl, fun _ => rfl⟩

/-- C4: the malformed structured-field entries named by the claim make
from_descr panic rather than return a MalformedField error: a non-list
entry and a two-element list with non-string members hit unimplemented!(),
and a list entry with fewer than two elements panics on the out-of-bounds
index &field[0] / &field[1]. -/
theorem c4_from_descr_malformed_entries_panic :
    from_descr (Value.List [Value.Integer 0]) =
      PResult.panics ("not implemented") ∧
    from_descr (Value.List [Value.List []]) =
      PResult.panics ("index out of bounds") ∧
    from_descr (Value.List [Value.List [Value.String ("a".toList)]]) =
      PResult.panics ("index out of bounds") ∧
    from_descr (Value.List [Value.List [Value.Integer 1, Value.Integer 2]]) =
      PResult.panics ("not implemented") :=
  ⟨rfl, rfl, rfl, rfl⟩

/-! ## Claim theorems: grammar edge cases -/

/-- C9: an empty parenthesized group parses exactly like an empty list and
a one-element parenthesized group exactly like a one-element list; both
come back as the Value::List variant. -/
theorem c9_parens_parse_as_list :
    parse_item ("()".toList) = some (Value.List [], []) ∧
    parse_item ("(4)".toList) = some (Value.List [Value.Integer 4], []) :=
  ⟨rfl, rfl⟩

/-- The whitespace eater is inert on input starting with a non-whitespace
character. -/
theorem dropWs_cons {c : Char} (h : isWsChar c = false) (s : Str) :
    dropWs (c :: s) = c :: s := by
  simp [dropWs, List.dropWhile_cons, h]

/-- An ASCII digit is not one of the ws! whitespace characters. -/
theorem digit_not_ws {c : Char} (h : c.isDigit = true) :
    isWsChar c = false := by
  by_contra hw
  rw [Bool.not_eq_false] at hw
  simp only [isWsChar, Bool.or_eq_true, beq_iff_eq] at hw
  rcases hw with ((h1 | h1) | h1) | h1 <;> subst h1 <;>
    exact absurd h (by decide)

/-- takeWhile over a run of matching characters stops exactly at the first
non-matching one. -/
theorem takeWhile_run {p : Char → Bool} {ds : Str}
    (h : ∀ x ∈ ds, p x = true) {c : Char} (hc : p c = false) (rest : Str) :
    (ds ++ c :: rest).takeWhile p = ds := by
  rw [List.takeWhile_append_of_pos h, List.takeWhile_cons, hc]
  simp

/-- nom digit on a non-empty digit run that is terminated by a non-digit
character inside the input. -/
theorem digits_run {ds : Str} (h0 : ds ≠ [])
    (h : ∀ x ∈ ds, x.isDigit = true) {c : Char} (hc : c.isDigit = false)
    (rest : Str) :
    parser.digits (ds ++ c :: rest) = some (ds, c :: rest) := by
  cases ds with
  | nil => exact absurd rfl h0
  | cons d ds' =>
    have ht := takeWhile_run (p := fun x => x.isDigit) h hc rest
    simp only [parser.digits, ht]
    rw [List.drop_left]
    rfl

/-! ## Claim theorems: integer and string productions -/

/-- C7 counterexample: the integer production has no sign handling, so the
input "-5" does not parse to Integer(-5); it fails, both under the integer
production itself and under the full item production. -/
theorem c7_minus_five_rejected :
    parser.integer ("-5".toList) = none ∧
    parse_item ("-5".toList) = none :=
  ⟨rfl, rfl⟩

/-- C7 amended: the integer production accepts only unsigned digit runs; a
leading minus sign always fails (nom digit demands a digit first), and a
digit run terminated by a non-digit character parses to the corresponding
Integer when its value fits in i64 (and fails via map_res! otherwise). -/
theorem c7_integer_unsigned :
    (∀ s : Str, parser.integer ('-' :: s) = none) ∧
    (∀ (ds : Str) (c : Char) (rest : Str),
      ds ≠ [] → (∀ x ∈ ds, x.isDigit = true) → c.isDigit = false →
      parser.integer (ds ++ c :: rest) =
        if parser.digitsVal ds ≤ parser.i64Max then
          some (Value.Integer (Int.ofNat (parser.digitsVal ds)),
            dropWs (c :: rest))
        else none) := by
  constructor
  · intro s
    have hw : dropWs ('-' :: s) = '-' :: s := dropWs_cons (by decide) s
    simp [parser.integer, hw, parser.digits, List.takeWhile_cons]
  · intro ds c rest h0 h hc
    have hd : isWsChar (ds ++ c :: rest).headI = false := by
      cases ds with
      | nil => exact absurd rfl h0
      | cons d ds' => exact digit_not_ws (h d (by simp))
    have hw : dropWs (ds ++ c :: rest) = ds ++ c :: rest := by
      cases ds with
      | nil => exact absurd rfl h0
      | cons d ds' => exact dropWs_cons (by simpa using hd) _
    simp only [parser.integer, hw, digits_run h0 h hc rest]

/-- C7 witness: the digit run "5" terminated by a space parses to
Integer 5 with the trailing whitespace eaten. -/
theorem c7_integer_unsigned_witness :
    parser.integer ('5' :: ' ' :: []) = some (Value.Integer 5, []) := by
  have h := c7_integer_unsigned.2 ['5'] ' ' [] (by simp) (by decide)
    (by decide)
  exact h.trans (by rfl)

/-- C8 counterexample: is_not_s! requires at least one content character,
so the zero-content strings rejected here do not parse to String("") as
the claim states; both fail. -/
theorem c8_empty_strings_rejected :
    parser.string ("''".toList) = none ∧
    parser.string ("\"\"".toList) = none :=
  ⟨rfl, rfl⟩

/-- C8 amended: the content repetition of the string production is one or
more, not zero or more: both zero-content quoted strings fail, while a
single-character quoted string parses. -/
theorem c8_string_nonempty_content :
    parser.string ("''".toList) = none ∧
    parser.string ("\"\"".toList) = none ∧
    parser.string ("'a'".toList) = some (Value.String ['a'], []) ∧
    parser.string ("\"a\"".toList) = some (Value.String ['a'], []) :=
  ⟨rfl, rfl, rfl, rfl⟩

/-! ## Claim theorems: map collection semantics -/

/-- find? looks through a filter unchanged when the search predicate
implies the filter predicate. -/
theorem find?_filter_of_imp {α : Type} {p q : α → Bool}
    (h : ∀ x, p x = true → q x = true) :
    ∀ l : List α, (l.filter q).find? p = l.find? p
  | [] => rfl
  | a :: l => by
    by_cases hq : q a = true
    · rw [List.filter_cons_of_pos hq]
      by_cases hp : p a = true
      · rw [List.find?_cons_of_pos _ hp, List.find?_cons_of_pos _ hp]
      · rw [List.find?_cons_of_neg _ hp, List.find?_cons_of_neg _ hp,
          find?_filter_of_imp h l]
    · have hp : ¬ p a = true := fun hc => hq (h a hc)
      rw [List.filter_cons_of_neg hq, List.find?_cons_of_neg _ hp,
        find?_filter_of_imp h l]

/-- HashMap lookup after a single insertion: the inserted key reads back
the new value, every other key is untouched. -/
theorem mapLookup_mapInsert (m : List (Str × Value)) (k' k : Str)
    (v : Value) :
    mapLookup (mapInsert m k' v) k =
      if k' == k then some v else mapLookup m k := by
  by_cases hk : k' = k
  · subst hk
    have hnone :
        ((m.filter (fun p => !(p.1 == k'))).find? (fun p => p.1 == k'))
          = none := by
      rw [List.find?_eq_none]
      intro x hx
      have hx2 := (List.mem_filter.mp hx).2
      simp only [Bool.not_eq_eq_eq_not, Bool.not_true, beq_eq_false_iff_ne,
        ne_eq] at hx2
      simp [hx2]
    simp [mapLookup, mapInsert, List.find?_append, hnone]
  · have hb : (k' == k) = false := by simp [hk]
    have himp : ∀ x : Str × Value,
        (x.1 == k) = true → (!(x.1 == k')) = true := by
      intro x hx
      have hx1 : x.1 = k := by simpa using hx
      have : (x.1 == k') = false := by
        simp [hx1]
        exact fun hkk => hk hkk.symm
      simp [this]
    have hfind := find?_filter_of_imp himp m
    simp [mapLookup, mapInsert, List.find?_append, hfind, hb]

/-- Lookup in the HashMap built by folding insertions: the rightmost
binding of the key in the pair sequence wins, falling back to the initial
map. -/
theorem mapLookup_foldl (ps : List (Str × Value)) (init : List (Str × Value))
    (k : Str) :
    mapLookup (ps.foldl (fun m p => mapInsert m p.1 p.2) init) k =
      ((ps.reverse.find? (fun p => p.1 == k)).map
        (fun p => p.2)).or (mapLookup init k) := by
  induction ps generalizing init with
  | nil => simp
  | cons p ps ih =>
    rw [List.foldl_cons, ih (mapInsert init p.1 p.2),
      mapLookup_mapInsert]
    rw [List.reverse_cons, List.find?_append]
    cases hfind : ps.reverse.find? (fun q => q.1 == k) with
    | some x => simp
    | none =>
      by_cases hb : (p.1 == k) = true
      · simp [List.find?, hb]
      · simp only [Bool.not_eq_true] at hb
        simp [List.find?, hb]

/-- C10: the map production collects its syntactic pair sequence into a
HashMap by sequential insertion, so for any pair sequence the lookup of a
key returns the value of its rightmost occurrence (never an error), and
concretely a map text with the duplicated key 'a' parses successfully with
'a' bound to the second value. -/
theorem c10_duplicate_keys_last_wins :
    (∀ (ps : List (Str × Value)) (k : Str),
      mapLookup (collectMap ps) k =
        (ps.reverse.find? (fun p => p.1 == k)).map (fun p => p.2)) ∧
    parse_item ("\x7b'a': 1, 'a': 2\x7d".toList) =
      some (Value.Map [(['a'], Value.Integer 2)], []) ∧
    mapLookup [(['a'], Value.Integer 2)] ['a'] =
      some (Value.Integer 2) := by
  refine ⟨fun ps k => ?_, rfl, rfl⟩
  have h := mapLookup_foldl ps [] k
  simpa [collectMap, mapLookup] using h

/-! ## Claim theorems: envelope parser -/

/-- tag! consumes exactly its own bytes from the front of the input. -/
theorem byteTag_self_append (t r : List Nat) :
    byteTag t (t ++ r) = some r := by
  have hpre : t.isPrefixOf (t ++ r) = true := by
    rw [List.isPrefixOf_iff_prefix]
    exact List.prefix_append t r
  simp [byteTag, hpre, List.drop_left]

/-- Header bytes for an L-byte window w: magic, tag, version (1, 0) and
the little-endian length, followed by the window itself. -/
def mkHeaderBytes (w : List Nat) : List Nat :=
  147 :: (numpyTag ++ 1 :: 0 :: (w.length % 256) :: (w.length / 256) :: w)

/-- C5 counterexample: a valid envelope whose 6-byte window holds the item
True followed by the non-whitespace byte X (0x58) parses successfully –
the leftover inside the window is discarded, not rejected – and the
window with trailing whitespace succeeds as well. -/
theorem c5_trailing_garbage_accepted :
    parse_header
        ([147, 78, 85, 77, 80, 89, 1, 0, 6, 0, 84, 114, 117, 101, 32, 88]) =
      some (Value.Bool true, []) ∧
    parse_header
        ([147, 78, 85, 77, 80, 89, 1, 0, 7, 0,
          84, 114, 117, 101, 32, 32, 10]) =
      some (Value.Bool true, []) :=
  ⟨rfl, rfl⟩

/-- C5 amended: the envelope parser does not require the value parser to
consume the whole L-byte window: whenever the item production succeeds on
the window, the envelope succeeds with that value and with the payload
that follows the window, whatever unconsumed suffix (whitespace or not)
the item left inside the window. -/
theorem c5_window_remainder_ignored :
    ∀ (w rest : List Nat) (v : Value) (leftover : Str),
      w.length < 65536 →
      parser.item (w.length + 1) (decodeBytes w) = some (v, leftover) →
      parse_header (mkHeaderBytes w ++ rest) = some (v, rest) := by
  intro w rest v leftover _ hitem
  have hshape : mkHeaderBytes w ++ rest =
      147 :: (numpyTag ++ 1 :: 0 ::
        (w.length % 256) :: (w.length / 256) :: (w ++ rest)) := by
    simp [mkHeaderBytes]
  rw [hshape]
  have h1 : byteTag [147]
      (147 :: (numpyTag ++ 1 :: 0 ::
        (w.length % 256) :: (w.length / 256) :: (w ++ rest))) =
      some (numpyTag ++ 1 :: 0 ::
        (w.length % 256) :: (w.length / 256) :: (w ++ rest)) := by
    simp [byteTag, List.isPrefixOf]
  have h3 : byteTag [1, 0]
      (1 :: 0 :: (w.length % 256) :: (w.length / 256) :: (w ++ rest)) =
      some ((w.length % 256) :: (w.length / 256) :: (w ++ rest)) := by
    simp [byteTag, List.isPrefixOf]
  simp only [parse_header, h1, byteTag_self_append, h3, afterVersion]
  have hL : w.length % 256 + 256 * (w.length / 256) = w.length :=
    Nat.mod_add_div w.length 256
  rw [hL]
  have hlen : ¬ ((w ++ rest).length < w.length) := by
    simp
  rw [if_neg hlen, List.take_left, List.drop_left]
  rw [hitem]

/-- C5 witness: the amended statement applied to the window True,
space, X. -/
theorem c5_window_remainder_ignored_witness :
    parse_header (mkHeaderBytes [84, 114, 117, 101, 32, 88] ++ []) =
      some (Value.Bool true, []) :=
  c5_window_remainder_ignored [84, 114, 117, 101, 32, 88] []
    (Value.Bool true) ['X'] (by decide) (by rfl)

/-- C6 counterexample: two envelopes that differ only in their unsupported
version pairs – (2, 0) and (5, 7) – fail with one and the same result, so
the failure carries no UnsupportedVersion(major, minor) payload. -/
theorem c6_version_failure_carries_no_pair :
    parse_header ([147, 78, 85, 77, 80, 89, 2, 0]) = none ∧
    parse_header ([147, 78, 85, 77, 80, 89, 5, 7]) = none ∧
    parse_header ([147, 78, 85, 77, 80, 89, 2, 0]) =
      parse_header ([147, 78, 85, 77, 80, 89, 5, 7]) :=
  ⟨rfl, rfl, rfl⟩

/-- C6 amended: after a valid magic and tag, the envelope proceeds past
the version bytes exactly when they are (1, 0); every other pair makes the
whole parse fail with the bare failure result, which does not record the
pair. -/
theorem c6_version_gate :
    (∀ (major minor : Nat) (rest : List Nat), ¬(major = 1 ∧ minor = 0) →
      parse_header (147 :: (numpyTag ++ major :: minor :: rest)) = none) ∧
    (∀ rest : List Nat,
      parse_header (147 :: (numpyTag ++ 1 :: 0 :: rest)) =
        afterVersion rest) := by
  constructor
  · intro major minor rest hne
    have h1 : byteTag [147] (147 :: (numpyTag ++ major :: minor :: rest)) =
        some (numpyTag ++ major :: minor :: rest) := by
      simp [byteTag, List.isPrefixOf]
    have h2 : byteTag [1, 0] (major :: minor :: rest) = none := by
      have : ([1, 0].isPrefixOf (major :: minor :: rest)) = false := by
        simp only [List.isPrefixOf, Bool.and_eq_false_iff, beq_eq_false_iff_ne,
          ne_eq]
        by_cases hmaj : major = 1
        · subst hmaj
          right
          left
          intro h0
          exact hne ⟨rfl, h0.symm⟩
        · left
          exact fun h => hmaj h.symm
      simp [byteTag, this]
    simp only [parse_header, h1, byteTag_self_append, h2]
  · intro rest
    have h1 : byteTag [147] (147 :: (numpyTag ++ 1 :: 0 :: rest)) =
        some (numpyTag ++ 1 :: 0 :: rest) := by
      simp [byteTag, List.isPrefixOf]
    have h2 : byteTag [1, 0] (1 :: 0 :: rest) = some rest := by
      simp [byteTag, List.isPrefixOf]
    simp only [parse_header, h1, byteTag_self_append, h2]

/-- C6 witness: the gate applied to the unsupported pair (2, 0) and to the
supported pair (1, 0) on an empty remainder. -/
theorem c6_version_gate_witness :
    parse_header (147 :: (numpyTag ++ 2 :: 0 :: [])) = none ∧
    parse_header (147 :: (numpyTag ++ 1 :: 0 :: [])) = afterVersion [] :=
  ⟨c6_version_gate.1 2 0 [] (by simp), c6_version_gate.2 []⟩

/-! ## Round-trip lemmas: whitespace and failure heads -/

/-- The whitespace eater eats a leading whitespace character. -/
theorem dropWs_ws_cons {c : Char} (h : isWsChar c = true) (s : Str) :
    dropWs (c :: s) = dropWs s := by
  simp [dropWs, List.dropWhile_cons, h]

/-- Every production of the item alternation starts with the ws! eater, so
item ignores a leading whitespace character. -/
theorem item_ws {c : Char} (h : isWsChar c = true) (n : Nat) (s : Str) :
    parser.item n (c :: s) = parser.item n s := by
  have hint : parser.integer (c :: s) = parser.integer s := by
    simp [parser.integer, dropWs_ws_cons h]
  have hbool : parser.boolean (c :: s) = parser.boolean s := by
    simp [parser.boolean, dropWs_ws_cons h]
  have hq : ∀ q, parser.quoted q (c :: s) = parser.quoted q s := by
    intro q
    simp [parser.quoted, dropWs_ws_cons h]
  have hstr : parser.string (c :: s) = parser.string s := by
    simp [parser.string, hq]
  have hlist : ∀ e, parser.listF e (c :: s) = parser.listF e s := by
    intro e
    simp [parser.listF, dropWs_ws_cons h]
  have hmap : ∀ e, parser.mapF e (c :: s) = parser.mapF e s := by
    intro e
    simp [parser.mapF, dropWs_ws_cons h]
  cases n with
  | zero => rfl
  | succ n => simp [parser.item, hint, hbool, hstr, hlist, hmap]

/-- The item production always fails on input starting with a closing
bracket: every alternation branch rejects the head character. -/
theorem item_rbrack (n : Nat) (s : Str) :
    parser.item n (']' :: s) = none := by
  cases n with
  | zero => rfl
  | succ n => rfl

/-! ## Round-trip lemmas: quoted strings -/

/-- tag! on its single character. -/
theorem tag_single (q : Char) (x : Str) :
    parser.tag [q] (q :: x) = some x := by
  simp [parser.tag, List.isPrefixOf]

/-- is_not_s! consumes a non-empty quote-free run up to the quote. -/
theorem notChar_run {q : Char} {cs : Str} (h0 : cs ≠ [])
    (h : ∀ x ∈ cs, (!(x == q)) = true) (rest : Str) :
    parser.notChar q (cs ++ q :: rest) = some (cs, q :: rest) := by
  cases cs with
  | nil => exact absurd rfl h0
  | cons c cs' =>
    have ht := takeWhile_run (p := fun x => !(x == q)) h
      (c := q) (by simp) rest
    simp only [parser.notChar, ht]
    rw [List.drop_left]
    rfl

/-- The quoted branch of the string production on a well-behaved content
run: opening quote, content, closing quote. -/
theorem quoted_run {q : Char} (hq : isWsChar q = false) {cs : Str}
    (hcs : cs ≠ []) (hhead : isWsChar cs.headI = false)
    (hnq : ∀ x ∈ cs, (!(x == q)) = true) (rest : Str) :
    parser.quoted q (q :: (cs ++ q :: rest)) = some (cs, rest) := by
  have h1 : dropWs (q :: (cs ++ q :: rest)) = q :: (cs ++ q :: rest) :=
    dropWs_cons hq _
  have h2 : dropWs (cs ++ q :: rest) = cs ++ q :: rest := by
    cases cs with
    | nil => exact absurd rfl hcs
    | cons c cs' => exact dropWs_cons (by simpa using hhead) _
  have h3 : dropWs (q :: rest) = q :: rest := dropWs_cons hq _
  simp only [parser.quoted, h1, tag_single, h2, notChar_run hcs hnq rest,
    h3]

/-- The string production on a single-quoted well-behaved content run; the
double-quote branch fails on the opening single quote, the single-quote
branch succeeds, and the terminal ws! eater runs on the remainder. -/
theorem string_squoted {cs : Str} (h : goodStr cs = true) (rest : Str) :
    parser.string ('\'' :: (cs ++ '\'' :: rest)) =
      some (Value.String cs, dropWs rest) := by
  obtain ⟨c, cs', rfl⟩ : ∃ c cs', cs = c :: cs' := by
    cases cs with
    | nil => exact absurd h (by simp [goodStr])
    | cons c cs' => exact ⟨c, cs', rfl⟩
  simp only [goodStr, Bool.and_eq_true, Bool.not_eq_eq_eq_not,
    Bool.not_true, List.all_eq_true] at h
  have hdq : parser.quoted '"' ('\'' :: (c :: cs' ++ '\'' :: rest)) =
      none := rfl
  have hsq := @quoted_run '\'' (by decide) (c :: cs')
    (by simp) (by simpa using h.1) (fun x hx => by simp [h.2 x hx]) rest
  simp only [parser.string, hdq, hsq]

/-- The item production on a single-quoted well-behaved content run:
integer and boolean reject the opening quote, string succeeds. -/
theorem item_squoted {cs : Str} (h : goodStr cs = true) (n : Nat)
    (rest : Str) :
    parser.item (n + 1) ('\'' :: (cs ++ '\'' :: rest)) =
      some (Value.String cs, dropWs rest) := by
  have hint : parser.integer ('\'' :: (cs ++ '\'' :: rest)) = none := rfl
  have hbool : parser.boolean ('\'' :: (cs ++ '\'' :: rest)) = none := rfl
  simp only [parser.item, hint, hbool, string_squoted h rest]

/-! ## Round-trip lemmas: field tuples -/

/-- The list production on one rendered field tuple: parenthesized branch,
two single-quoted strings separated by a comma, trailing-comma alternation
taking its empty case. -/
theorem listF_tuple {nm ty : Str} (hnm : goodStr nm = true)
    (hty : goodStr ty = true) (n : Nat) (rest : Str) :
    parser.listF (parser.item (n + 1))
        ('(' :: ('\'' :: (nm ++
          ('\'' :: ',' :: ' ' :: '\'' :: (ty ++ ('\'' :: ')' :: rest)))))) =
      some (Value.List [Value.String nm, Value.String ty], dropWs rest) := by
  have hd0 : dropWs ('(' :: ('\'' :: (nm ++
      ('\'' :: ',' :: ' ' :: '\'' :: (ty ++ ('\'' :: ')' :: rest)))))) =
      '(' :: ('\'' :: (nm ++
      ('\'' :: ',' :: ' ' :: '\'' :: (ty ++ ('\'' :: ')' :: rest))))) :=
    dropWs_cons (by decide) _
  have ht1 : parser.tag ['[']
      ('(' :: ('\'' :: (nm ++
        ('\'' :: ',' :: ' ' :: '\'' :: (ty ++ ('\'' :: ')' :: rest)))))) =
      none := rfl
  have e1 := item_squoted hnm n
    (',' :: ' ' :: '\'' :: (ty ++ ('\'' :: ')' :: rest)))
  rw [dropWs_cons (by decide)] at e1
  have e2 := item_squoted hty n (')' :: rest)
  rw [dropWs_cons (by decide)] at e2
  have e2w : parser.item (n + 1)
      (' ' :: ('\'' :: (ty ++ ('\'' :: ')' :: rest)))) =
      some (Value.String ty, ')' :: rest) := by
    rw [item_ws (by decide)]
    exact e2
  have hdc : dropWs (')' :: rest) = ')' :: rest := dropWs_cons (by decide) _
  have htc : parser.tag [','] (')' :: rest) = none := rfl
  simp only [parser.listF, hd0, ht1, tag_single, parser.groupTail,
    parser.sepList, e1, parser.sepLoop,
    dropWs_cons (show isWsChar ',' = false by decide), tag_single, e2w,
    List.length_cons, hdc, htc, tag_single]
  rfl

/-- One-step unfolding of the item alternation at positive fuel. -/
theorem item_succ (n : Nat) (s : Str) :
    parser.item (n + 1) s =
      (match parser.integer s with
       | some r => some r
       | none =>
         match parser.boolean s with
         | some r => some r
         | none =>
           match parser.string s with
           | some r => some r
           | none =>
             match parser.listF (parser.item n) s with
             | some r => some r
             | none => parser.mapF (parser.item n) s) := rfl

/-- The item production on one rendered field tuple: integer, boolean and
string all reject the opening parenthesis; the list production parses it. -/
theorem item_tuple {nm ty : Str} (hnm : goodStr nm = true)
    (hty : goodStr ty = true) (n : Nat) (rest : Str) :
    parser.item (n + 2)
        ('(' :: ('\'' :: (nm ++
          ('\'' :: ',' :: ' ' :: '\'' :: (ty ++ ('\'' :: ')' :: rest)))))) =
      some (Value.List [Value.String nm, Value.String ty], dropWs rest) := by
  have hint : parser.integer
      ('(' :: ('\'' :: (nm ++
        ('\'' :: ',' :: ' ' :: '\'' :: (ty ++ ('\'' :: ')' :: rest)))))) =
      none := rfl
  have hbool : parser.boolean
      ('(' :: ('\'' :: (nm ++
        ('\'' :: ',' :: ' ' :: '\'' :: (ty ++ ('\'' :: ')' :: rest)))))) =
      none := rfl
  have hstr : parser.string
      ('(' :: ('\'' :: (nm ++
        ('\'' :: ',' :: ' ' :: '\'' :: (ty ++ ('\'' :: ')' :: rest)))))) =
      none := rfl
  rw [item_succ]
  simp only [hint, hbool, hstr, listF_tuple hnm hty n rest]

/-- A rendered shapeless field followed by anything, written out character
by character. -/
theorem renderField_append (nm ty : Str) (X : Str) :
    renderField (nm, DType.mk ty []) ++ X =
      '(' :: ('\'' :: (nm ++
        ('\'' :: ',' :: ' ' :: '\'' :: (ty ++
          ('\'' :: ')' :: ',' :: ' ' :: X))))) := by
  simp [renderField, List.append_assoc]

/-- Rendered fields are never empty strings. -/
theorem renderField_length_pos (f : Str × DType) :
    1 ≤ (renderField f).length := by
  obtain ⟨nm, dt⟩ := f
  by_cases hsh : dt.shape.length = 0
  · simp [renderField, hsh]
  · simp [renderField, hsh]

/-- A field list never renders to fewer characters than it has fields. -/
theorem flatten_renderField_len (fs : List (Str × DType)) :
    fs.length ≤ ((fs.map renderField).flatten).length := by
  induction fs with
  | nil => simp
  | cons f fs ih =>
    simp only [List.map_cons, List.flatten_cons, List.length_append,
      List.length_cons]
    have := renderField_length_pos f
    omega

/-! ## Round-trip lemmas: the field list loop -/

/-- The separated-list loop over the remaining rendered fields of a
structured descriptor: each iteration consumes the comma-space separator
and one field tuple, and the loop stops (backtracking the final separator)
when it probes the closing bracket. -/
theorem sepLoop_fields (n : Nat) :
    ∀ (fs : List (Str × DType)) (fuel : Nat) (acc : List Value)
      (tail : Str),
      (∀ f ∈ fs, fieldGood f = true) → fs.length + 1 ≤ fuel →
      parser.sepLoop (parser.item (n + 2)) fuel
          (',' :: ' ' :: ((fs.map renderField).flatten ++ (']' :: tail)))
          acc =
        (acc ++ fs.map fieldVal, ',' :: ' ' :: (']' :: tail)) := by
  intro fs
  induction fs with
  | nil =>
    intro fuel acc tail _ hfuel
    obtain ⟨m, rfl⟩ : ∃ m, fuel = m + 1 := by
      cases fuel with
      | zero => omega
      | succ m => exact ⟨m, rfl⟩
    have helem : parser.item (n + 2) (' ' :: (']' :: tail)) = none := by
      rw [item_ws (by decide)]
      exact item_rbrack _ _
    simp only [List.map_nil, List.flatten_nil, List.nil_append,
      parser.sepLoop, dropWs_cons (show isWsChar ',' = false by decide),
      tag_single, helem, List.map_nil, List.append_nil]
  | cons f fs' ih =>
    intro fuel acc tail hgood hfuel
    obtain ⟨fnm, fdt⟩ := f
    obtain ⟨fty, fshape⟩ := fdt
    have hf := hgood (fnm, DType.mk fty fshape) (by simp)
    simp only [fieldGood, Bool.and_eq_true, List.isEmpty_iff] at hf
    obtain ⟨⟨hnm, hty⟩, hsh⟩ := hf
    subst hsh
    obtain ⟨m, rfl⟩ : ∃ m, fuel = m + 1 := by
      cases fuel with
      | zero => omega
      | succ m => exact ⟨m, rfl⟩
    have hflat :
        ((((fnm, DType.mk fty []) :: fs').map renderField).flatten ++
          (']' :: tail)) =
        renderField (fnm, DType.mk fty []) ++
          (((fs'.map renderField).flatten) ++ (']' :: tail)) := by
      simp [List.append_assoc]
    rw [hflat, renderField_append]
    have helem : parser.item (n + 2)
        (' ' :: ('(' :: ('\'' :: (fnm ++
          ('\'' :: ',' :: ' ' :: '\'' :: (fty ++
            ('\'' :: ')' :: ',' :: ' ' ::
              ((fs'.map renderField).flatten ++ (']' :: tail))))))))) =
        some (Value.List [Value.String fnm, Value.String fty],
          ',' :: ' ' :: ((fs'.map renderField).flatten ++ (']' :: tail)))
        := by
      rw [item_ws (by decide), item_tuple hnm hty n _,
        dropWs_cons (by decide)]
    simp only [parser.sepLoop,
      dropWs_cons (show isWsChar ',' = false by decide), tag_single,
      helem]
    have hrec := ih m (acc ++ [Value.List [Value.String fnm,
      Value.String fty]]) tail
      (fun g hg => hgood g (by simp [hg])) (by simp at hfuel; omega)
    rw [hrec]
    simp [fieldVal]

/-! ## Round-trip lemmas: whole descriptors -/

/-- The item production on the full descriptor of a well-behaved
structured record: a bracketed separated list of field tuples with the
trailing comma consumed by the terminated! alternation. -/
theorem item_structured {fs : List (Str × DType)}
    (h : ∀ f ∈ fs, fieldGood f = true) (n : Nat) :
    parser.item (n + 3) (descr (RecordDType.Structured fs)) =
      some (Value.List (fs.map fieldVal), []) := by
  rw [descr_structured]
  cases fs with
  | nil =>
    have hint : parser.integer ('[' :: (([] : List Str).flatten ++ [']']))
        = none := rfl
    have hel : parser.item (n + 2) (']' :: ([] : Str)) = none :=
      item_rbrack _ _
    rw [item_succ]
    simp only [List.map_nil, List.flatten_nil, List.nil_append]
    have hbool : parser.boolean ('[' :: (']' :: [])) = none := rfl
    have hstr : parser.string ('[' :: (']' :: [])) = none := rfl
    have hintc : parser.integer ('[' :: (']' :: [])) = none := rfl
    simp only [hintc, hbool, hstr, parser.listF,
      dropWs_cons (show isWsChar '[' = false by decide), tag_single,
      parser.groupTail, parser.sepList, hel,
      dropWs_cons (show isWsChar ']' = false by decide)]
    rfl
  | cons f fs' =>
    obtain ⟨fnm, fdt⟩ := f
    obtain ⟨fty, fshape⟩ := fdt
    have hf := h (fnm, DType.mk fty fshape) (by simp)
    simp only [fieldGood, Bool.and_eq_true, List.isEmpty_iff] at hf
    obtain ⟨⟨hnm, hty⟩, hsh⟩ := hf
    subst hsh
    have hflat :
        ((((fnm, DType.mk fty []) :: fs').map renderField).flatten ++
          [']']) =
        renderField (fnm, DType.mk fty []) ++
          (((fs'.map renderField).flatten) ++ (']' :: [])) := by
      simp [List.append_assoc]
    rw [hflat, renderField_append]
    have hint : parser.integer
        ('[' :: ('(' :: ('\'' :: (fnm ++
          ('\'' :: ',' :: ' ' :: '\'' :: (fty ++
            ('\'' :: ')' :: ',' :: ' ' ::
              ((fs'.map renderField).flatten ++ (']' :: []))))))))) =
        none := rfl
    have hbool : parser.boolean
        ('[' :: ('(' :: ('\'' :: (fnm ++
          ('\'' :: ',' :: ' ' :: '\'' :: (fty ++
            ('\'' :: ')' :: ',' :: ' ' ::
              ((fs'.map renderField).flatten ++ (']' :: []))))))))) =
        none := rfl
    have hstr : parser.string
        ('[' :: ('(' :: ('\'' :: (fnm ++
          ('\'' :: ',' :: ' ' :: '\'' :: (fty ++
            ('\'' :: ')' :: ',' :: ' ' ::
              ((fs'.map renderField).flatten ++ (']' :: []))))))))) =
        none := rfl
    have helem := item_tuple hnm hty n
      (',' :: ' ' :: ((fs'.map renderField).flatten ++ (']' :: [])))
    rw [dropWs_cons (by decide)] at helem
    have hloop := sepLoop_fields n fs'
      ((',' :: ' ' ::
        ((fs'.map renderField).flatten ++ (']' :: []))).length + 1)
      [Value.List [Value.String fnm, Value.String fty]] []
      (fun g hg => h g (by simp [hg]))
      (by
        have := flatten_renderField_len fs'
        simp only [List.length_cons, List.length_append]
        omega)
    have hsl : parser.sepList (parser.item (n + 2))
        ('(' :: ('\'' :: (fnm ++
          ('\'' :: ',' :: ' ' :: '\'' :: (fty ++
            ('\'' :: ')' :: ',' :: ' ' ::
              ((fs'.map renderField).flatten ++ (']' ::[])))))))) =
        ([Value.List [Value.String fnm, Value.String fty]] ++
          fs'.map fieldVal, ',' :: ' ' :: (']' :: [])) := by
      simp only [parser.sepList, helem]
      exact hloop
    have hgt : parser.groupTail (parser.item (n + 2)) ']'
        ('(' :: ('\'' :: (fnm ++
          ('\'' :: ',' :: ' ' :: '\'' :: (fty ++
            ('\'' :: ')' :: ',' :: ' ' ::
              ((fs'.map renderField).flatten ++ (']' :: [])))))))) =
        some ([Value.List [Value.String fnm, Value.String fty]] ++
          fs'.map fieldVal, []) := by
      simp only [parser.groupTail, hsl,
        dropWs_cons (show isWsChar ',' = false by decide), tag_single,
        dropWs_ws_cons (show isWsChar ' ' = true by decide),
        dropWs_cons (show isWsChar ']' = false by decide)]
      rfl
    rw [item_succ]
    simp only [hint, hbool, hstr, parser.listF,
      dropWs_cons (show isWsChar '[' = false by decide), tag_single, hgt]
    simp [fieldVal]

/-- from_descr rebuilds exactly the field list from the Values that descr
produces for shapeless fields. -/
theorem from_list_fieldVals :
    ∀ fs : List (Str × DType), (∀ f ∈ fs, f.2.shape = []) →
      from_list (fs.map fieldVal) = PResult.ok fs
  | [], _ => rfl
  | (nm, dt) :: fs', h => by
    obtain ⟨ty, shape⟩ := dt
    have hsh : shape = [] := h (nm, DType.mk ty shape) (by simp)
    subst hsh
    have ih := from_list_fieldVals fs' (fun f hf => h f (by simp [hf]))
    simp only [List.map_cons, fieldVal, from_list, convert_field, ih]

/-! ## Claim theorems: the descriptor round trip -/

/-- C1 counterexample: two descriptors with every shape empty that the
round trip does not reproduce: the empty type string renders to two bare
quotes, which the string production rejects (is_not_s! needs content), and
a type string containing a single quote renders to text whose parse stops
at the embedded quote, returning a different record. -/
theorem c1_roundtrip_cex :
    (shapesEmpty (RecordDType.Simple (DType.mk [] [])) = true ∧
      roundTrip (RecordDType.Simple (DType.mk [] [])) = none) ∧
    (shapesEmpty (RecordDType.Simple (DType.mk ("a'b".toList) [])) = true ∧
      roundTrip (RecordDType.Simple (DType.mk ("a'b".toList) [])) ≠
        some (RecordDType.Simple (DType.mk ("a'b".toList) []))) :=
  ⟨⟨rfl, rfl⟩, ⟨rfl, by decide⟩⟩

/-- C1 amended: the round trip from_descr(parse(descr(d))) reproduces d
for every record whose shapes are all empty and whose type strings and
field names are non-empty, contain no single quote, and do not start with
one of the ws! whitespace characters (the last condition guards against
the whitespace eater that ws! threads between the opening quote and the
string content). -/
theorem c1_roundtrip (d : RecordDType) (h : goodRecord d = true) :
    roundTrip d = some d := by
  cases d with
  | Simple dt =>
    obtain ⟨ty, shape⟩ := dt
    simp only [goodRecord, Bool.and_eq_true, List.isEmpty_iff] at h
    obtain ⟨hty, hsh⟩ := h
    subst hsh
    have hdescr : descr (RecordDType.Simple (DType.mk ty [])) =
        '\'' :: (ty ++ ('\'' :: [])) := by
      simp [descr]
    simp only [roundTrip, parse_item, hdescr]
    rw [item_squoted hty]
    rfl
  | Structured fs =>
    simp only [goodRecord, List.all_eq_true] at h
    have hshapes : ∀ f ∈ fs, f.2.shape = [] := by
      intro f hf
      have := h f hf
      simp only [fieldGood, Bool.and_eq_true, List.isEmpty_iff] at this
      exact this.2
    have hfuel : (descr (RecordDType.Structured fs)).length + 1 =
        ((fs.map renderField).flatten).length + 3 := by
      rw [descr_structured]
      simp
    simp only [roundTrip, parse_item, hfuel]
    rw [item_structured h]
    simp only [from_descr, from_list_fieldVals fs hshapes]

/-- C1 witness: the amended round trip applied to a one-field structured
record. -/
theorem c1_roundtrip_witness :
    roundTrip (RecordDType.Structured
        [("a".toList, DType.mk ("<u2".toList) [])]) =
      some (RecordDType.Structured
        [("a".toList, DType.mk ("<u2".toList) [])]) :=
  c1_roundtrip _ (by decide)
